import Mathlib

/-!
# Verification of the GPG indicator core (`src/indicator/gpg.ts`, `src/indicator/process.ts`)

This file gives a shallow embedding of the key-metadata parser, the agent
status-reply parser, the key-resolution loop, the interactive answer loop and
the process/TTY I/O layer of the repository, together with theorems settling
the specification claims about them.

Machine strings are modelled as `String` / `List Char`; asynchronous,
fallible operations are modelled as pure functions into `Except`; the
observable I/O of a child process or a TTY (chunks delivered, bytes
available) is passed in explicitly as data.
-/

/-! ## Character classes of the JavaScript regular-expression engine

`parseGpgKey` matches the ECMAScript pattern
`/(pub|sub)\s+\w+.*\[(.)*\]\n((?:\s*\w+)*)\n\s+Keygrip\s=\s(\w+)/g`.
We embed the character classes `\s` and `\w` exactly as ECMAScript defines
them (`\s` = WhiteSpace ∪ LineTerminator, `\w` = `[A-Za-z0-9_]`).
-/

/-- ECMAScript `\s`: space, tab, LF, VT, FF, CR, NBSP, Ogham space,
the ` `–` ` range, LS, PS, NNBSP, MMSP, ideographic space, BOM. -/
def isWs (c : Char) : Bool :=
  c.toNat = 32 || c.toNat = 9 || c.toNat = 10 || c.toNat = 11 || c.toNat = 12 ||
  c.toNat = 13 || c.toNat = 0xa0 || c.toNat = 0x1680 ||
  (0x2000 ≤ c.toNat && c.toNat ≤ 0x200a) ||
  c.toNat = 0x2028 || c.toNat = 0x2029 || c.toNat = 0x202f ||
  c.toNat = 0x205f || c.toNat = 0x3000 || c.toNat = 0xfeff

/-- ECMAScript `\w`: `[A-Za-z0-9_]`. -/
def isWordChar (c : Char) : Bool :=
  (97 ≤ c.toNat && c.toNat ≤ 122) || (65 ≤ c.toNat && c.toNat ≤ 90) ||
  (48 ≤ c.toNat && c.toNat ≤ 57) || c.toNat = 95

/-! ## The key record (`GpgKeyInfo` interface in `gpg.ts`)

The `capabilities` field is assigned from `matched[2]`, the capture of the
repeated single-character group `(.)`; in ECMAScript that capture holds the
character matched by the *last* iteration of the group, or is `undefined`
when the group iterated zero times, so it is modelled as `Option Char`. -/

structure GpgKeyInfo where
  type : String
  capabilities : Option Char
  fingerprint : String
  keygrip : String
deriving DecidableEq, Repr

/-! ## The block matcher

`parseGpgKey` repeatedly calls `pattern.exec`: from the current position it
searches for the leftmost match of the pattern and then continues after the
matched text.  We embed a single match attempt anchored at the head of a
`List Char` (`matchBlock`), and the `exec` scan that advances one character
at a time until an anchored attempt succeeds (`parseLoopFuel`).

Each stage below embeds one piece of the pattern; greedy sub-patterns whose
backtracking can never change the overall result (because the adjacent
character classes are disjoint, e.g. `\s+\w+`) are embedded as maximal-munch
runs.  The two places where the engine's backtracking is observable — the
choice of the `\[` position for `.*\[(.)*\]` and the end position of the
fingerprint group `((?:\s*\w+)*)` — are embedded by the explicit searches in
`matchCapsSegment` and `searchFprEnd`. -/

/-- Match a literal character sequence at the head, returning the rest. -/
def matchLit : List Char → List Char → Option (List Char)
  | [], l => some l
  | _ :: _, [] => none
  | c :: cs, x :: xs => if x = c then matchLit cs xs else none

/-- `(pub|sub)`: the alternation at the start of the pattern. -/
def matchPubSub (l : List Char) : Option (String × List Char) :=
  match matchLit ['p', 'u', 'b'] l with
  | some r => some ("pub", r)
  | none =>
    match matchLit ['s', 'u', 'b'] l with
    | some r => some ("sub", r)
    | none => none

/-- `\s+`: at least one whitespace character, matched greedily. -/
def matchWsPlus (l : List Char) : Option (List Char) :=
  if (l.takeWhile isWs).isEmpty then none else some (l.dropWhile isWs)

/-- `\w+`: at least one word character, matched greedily; returns the run. -/
def matchWordPlus (l : List Char) : Option (List Char × List Char) :=
  if (l.takeWhile isWordChar).isEmpty then none else
    some (l.takeWhile isWordChar, l.dropWhile isWordChar)

/-- `.*\[(.)*\]\n`: `.` does not match a newline, so the whole piece lives on
the current line; greedy `.*` selects the *last* `[` on the line that leaves
room for the closing `]`, which must be the final character before the
newline; the repeated group `(.)` retains the last character between the
chosen `[` and the final `]` (or nothing when they are adjacent).
Returns the capture of group 2 and the text after the newline. -/
def matchCapsSegment (l : List Char) : Option (Option Char × List Char) :=
  let line := l.takeWhile (fun c => c != '\n')
  match l.dropWhile (fun c => c != '\n') with
  | [] => none
  | _ :: restAfter =>
    match line.reverse with
    | [] => none
    | lastC :: revBody =>
      if lastC = ']' then
        if (revBody.dropWhile (fun c => c != '[')).isEmpty then none
        else some ((revBody.takeWhile (fun c => c != '[')).head?, restAfter)
      else none

/-- The continuation after the fingerprint group:
`\n\s+Keygrip\s=\s(\w+)` — a literal newline, then at least one whitespace
character, the literal `Keygrip`, a single whitespace character, `=`, a
single whitespace character, and the keygrip word run.
Returns the keygrip run and the rest. -/
def matchKeygripTail (l : List Char) : Option (List Char × List Char) :=
  match l with
  | [] => none
  | c0 :: l1 =>
    if c0 = '\n' then
      match matchWsPlus l1 with
      | none => none
      | some l2 =>
        match matchLit ['K', 'e', 'y', 'g', 'r', 'i', 'p'] l2 with
        | none => none
        | some l3 =>
          match l3 with
          | [] => none
          | c1 :: l4 =>
            match l4 with
            | [] => none
            | ceq :: l5 =>
              match l5 with
              | [] => none
              | c2 :: l6 =>
                if isWs c1 && (ceq == '=') && isWs c2 then matchWordPlus l6 else none
    else none

/-- A position `e` is a possible end of the fingerprint group
`((?:\s*\w+)*)`: either the group is empty or its last matched character is
a word character. -/
def fprBoundary (l : List Char) (e : Nat) : Bool :=
  e == 0 ||
    match l[e - 1]? with
    | some c => isWordChar c
    | none => false

/-- Backtracking search for the end of the greedy fingerprint group: try the
candidate end positions from longest to shortest and keep the first one at
which the `Keygrip` continuation matches.  (For this pattern at most one
candidate can succeed — the continuation contains an `=` that the group
itself can never cross — so any complete search order is equivalent to the
engine's.) -/
def searchFprEnd (l : List Char) : Nat → Option (Nat × List Char × List Char)
  | 0 =>
    match matchKeygripTail l with
    | some (grip, rest) => some (0, grip, rest)
    | none => none
  | e + 1 =>
    if fprBoundary l (e + 1) then
      match matchKeygripTail (l.drop (e + 1)) with
      | some (grip, rest) => some (e + 1, grip, rest)
      | none => searchFprEnd l e
    else searchFprEnd l e

/-- One anchored attempt of the whole pattern
`(pub|sub)\s+\w+.*\[(.)*\]\n((?:\s*\w+)*)\n\s+Keygrip\s=\s(\w+)`.
On success returns the record built exactly as in the `while` loop of
`parseGpgKey` (`fingerprint = matched[3].replace(/\s+/g, '')`) together with
the text after the match. -/
def matchBlock (l : List Char) : Option (GpgKeyInfo × List Char) :=
  match matchPubSub l with
  | none => none
  | some (ty, l1) =>
    match matchWsPlus l1 with
    | none => none
    | some l2 =>
      match matchWordPlus l2 with
      | none => none
      | some (_, l3) =>
        match matchCapsSegment l3 with
        | none => none
        | some (caps, l4) =>
          match searchFprEnd l4 ((l4.takeWhile (fun c => isWs c || isWordChar c)).length) with
          | none => none
          | some (e, grip, rest) =>
            some ({ type := ty,
                    capabilities := caps,
                    fingerprint := ((l4.take e).filter (fun c => !isWs c)).asString,
                    keygrip := grip.asString }, rest)

/-- The `exec` scan of `parseGpgKey`: at each position try an anchored
match; on success emit the record and continue after the matched text,
otherwise advance one character.  The fuel argument is only a termination
measure; `length l + 1` units always suffice (every step shortens the
text). -/
def parseLoopFuel : Nat → List Char → List GpgKeyInfo
  | 0, _ => []
  | fuel + 1, l =>
    match matchBlock l with
    | some (info, rest) => info :: parseLoopFuel fuel rest
    | none =>
      match l with
      | [] => []
      | _ :: t => parseLoopFuel fuel t

/-- `parseGpgKey` from `gpg.ts`: collect all matches of the key-block
pattern over the raw enumeration output, in document order. -/
def parseGpgKey (rawText : String) : List GpgKeyInfo :=
  parseLoopFuel (rawText.data.length + 1) rawText.data

/-! ## Errors

The source throws plain `Error` values; the distinct throw sites are
modelled as distinct constructors, named after the specification's error
taxonomy, carrying the data the corresponding message interpolates. -/

/-- Failures of the gpg protocol layer (`gpg.ts`). -/
inductive GpgError where
  /-- `throw new Error(lines[0])` in `isKeyUnlocked`: the agent replied
  with its one-line error shape; the error carries that line. -/
  | agentError (line : String)
  /-- `throw new Error('Fail to parse KEYINFO output')` in `isKeyUnlocked`. -/
  | malformedResponse
  /-- ``throw new Error(`Can not find key with ID: ${keyId}`)`` in
  `getKeyInfo` / `isKeyIdUnlocked`. -/
  | keyNotFound (keyId : String)
  /-- `throw new Error('Fail to match output')` in `answerTty`. -/
  | unexpectedOutput
deriving DecidableEq, Repr

/-- Failures of the process/TTY layer (`process.ts`). -/
inductive ProcessError where
  /-- `throw new Error('TTY not opened')` in `CurrentTty.read`. -/
  | notOpened
  /-- `throw new Error('Read zero bytes')` in `CurrentTty.read`. -/
  | emptyRead
deriving DecidableEq, Repr

/-! ## `isKeyUnlocked` (`gpg.ts`)

The function spawns `gpg-connect-agent` and parses its reply; the reply
text (the resolved `outputs` string) is passed in as the argument, so the
embedded function is exactly the parsing part:

```
let lines = outputs.split("\n");
if (lines.length === 1) { throw new Error(lines[0]); }
let line = lines[0];
let tokens = line.split(' ');
if (tokens.length !== 11) { throw new Error('Fail to parse KEYINFO output'); }
let isUnlocked = tokens[6] === '1';
return isUnlocked;
```

`split` is used with the one-character separators `"\n"` and `' '`;
JavaScript splits at every occurrence, keeps empty pieces, and yields a
single piece (`[""]` for `""`) when the separator does not occur. -/

/-- JavaScript `String.prototype.split` with a one-character separator. -/
def splitOnChar (sep : Char) : List Char → List (List Char)
  | [] => [[]]
  | c :: t =>
    if c = sep then [] :: splitOnChar sep t
    else
      match splitOnChar sep t with
      | piece :: pieces => (c :: piece) :: pieces
      | [] => [[c]]

def isKeyUnlocked (outputs : String) : Except GpgError Bool :=
  let lines := splitOnChar '\n' outputs.data
  if lines.length = 1 then .error (.agentError (lines.headD []).asString) else
    let line := lines.headD []
    let tokens := splitOnChar ' ' line
    if tokens.length ≠ 11 then .error .malformedResponse else
      .ok (tokens.getD 6 [] == ['1'])

/-! ## `getKeyInfo` (`gpg.ts`)

`getKeyInfo` runs the enumeration command (its stdout is passed in as
`keyInfoRaw`), parses it, and scans the records for the first whose
fingerprint `.includes(keyId)`. -/

/-- JavaScript `String.prototype.includes`: substring containment, true
for the empty needle. -/
def containsSubstr (s needle : List Char) : Bool :=
  if needle.isPrefixOf s then true else
    match s with
    | [] => false
    | _ :: t => containsSubstr t needle

/-- The `for (let info of infos) ... if (info.fingerprint.includes(keyId))`
loop shared by `getKeyInfo` and `isKeyIdUnlocked`. -/
def getKeyInfoLoop (infos : List GpgKeyInfo) (keyId : String) : Except GpgError GpgKeyInfo :=
  match infos with
  | [] => .error (.keyNotFound keyId)
  | info :: rest =>
    if containsSubstr info.fingerprint.data keyId.data then .ok info
    else getKeyInfoLoop rest keyId

/-- `getKeyInfo` with the enumeration-command stdout passed in. -/
def getKeyInfo (keyInfoRaw : String) (keyId : String) : Except GpgError GpgKeyInfo :=
  getKeyInfoLoop (parseGpgKey keyInfoRaw) keyId

/-! ## `textSpawn` stdout accumulation (`process.ts`)

The stdout `'data'` handler is `(data) => { output = data; }`: each chunk
*overwrites* the `output` variable.  The handler's effect over the whole
delivered chunk sequence is the fold below (`none` is the initial
`undefined`).  On `'close'` with exit code `0` the promise resolves with
the final value of `output`. -/

def textSpawnOutput (chunks : List String) : Option String :=
  chunks.foldl (fun _ data => some data) none

/-- The `'close'` handler: a non-zero exit code rejects (the promise
settles on the first `reject`, so the unguarded `resolve` after it is
inert), otherwise the promise resolves with the accumulated output. -/
def textSpawnClose (code : Int) (output : Option String) : Except Int (Option String) :=
  if code ≠ 0 then .error code else .ok output

/-! ## `answerTty` (`gpg.ts`)

```
for (const action of actions) {
    const output = await tty.read();
    if (output.match(action.question) === null) { throw new Error('Fail to match output'); }
    await tty.write(action.answer);
}
```

An `Action` holds a `RegExp` and an answer string; whether a chunk matches
the pattern is all the loop observes of the `RegExp`, so `question` is
embedded as the predicate `String → Bool`.  The `Tty` is modelled by the
stream of chunks its successive `read()` calls deliver, together with an
observable trace of the `read` and `write` events in the order they were
awaited. -/

structure TtyAction where
  question : String → Bool
  answer : String

inductive TtyEvent where
  | read (chunk : String)
  | write (content : String)
deriving DecidableEq, Repr

structure TtyStream where
  /-- `chunks i` is the chunk delivered by the `i`-th `read()`. -/
  chunks : Nat → String
  /-- index of the next `read()`. -/
  next : Nat
  /-- the I/O events so far, oldest first. -/
  trace : List TtyEvent

/-- `tty.read()`: deliver the next chunk. -/
def ttyRead (s : TtyStream) : String × TtyStream :=
  (s.chunks s.next,
   { s with next := s.next + 1, trace := s.trace ++ [.read (s.chunks s.next)] })

/-- `tty.write(content)`. -/
def ttyWrite (content : String) (s : TtyStream) : TtyStream :=
  { s with trace := s.trace ++ [.write content] }

def answerTty (actions : List TtyAction) (s : TtyStream) : Except GpgError TtyStream :=
  match actions with
  | [] => .ok s
  | action :: rest =>
    let (output, s1) := ttyRead s
    if action.question output = false then .error .unexpectedOutput
    else answerTty rest (ttyWrite action.answer s1)

/-- The event trace of a fully successful scripted session starting at
read index `i`: read a chunk, write the answer, repeat. -/
def ttyScript (actions : List TtyAction) (chunks : Nat → String) (i : Nat) : List TtyEvent :=
  match actions with
  | [] => []
  | action :: rest =>
    .read (chunks i) :: .write action.answer :: ttyScript rest chunks (i + 1)

/-! ## `CurrentTty.read` (`process.ts`)

```
const buffer = Buffer.alloc(256);
if (this.#readHandle === undefined) { throw new Error('TTY not opened'); }
const result = await this.#readHandle.read(buffer, 0, buffer.length, null);
if (result.bytesRead === 0) { throw new Error('Read zero bytes'); }
return result.buffer.toString('utf8', 0, result.bytesRead);
```

The read handle is `undefined` until `open()` has succeeded (`open` is the
only place that assigns it); a handle that is open is modelled by the byte
sequence the terminal device still has available.  One `read` into the
256-byte buffer consumes `min 256 available.length` bytes and advances the
stream; the returned value is the decoding of exactly the consumed bytes,
so the model returns the consumed bytes together with the remaining
stream. -/

def currentTtyRead (readHandle : Option (List Nat)) :
    Except ProcessError (List Nat × List Nat) :=
  match readHandle with
  | none => .error .notOpened
  | some available =>
    let bytesRead := min 256 available.length
    if bytesRead = 0 then .error .emptyRead
    else .ok (available.take bytesRead, available.drop bytesRead)


/-! ## Claim C1: well-formed enumeration outputs

A well-formed key block, as described by the specification's block grammar:
a `pub`/`sub` header with an algorithm word and bracketed capability
letters, a fingerprint line of space-separated hex groups, and an indented
`Keygrip = <hex>` line.  `renderBlock` produces the block's text;
`blockInfo` is the record the parser is expected to extract from it. -/

structure GpgBlock where
  isPub : Bool
  algo : List Char
  caps : List Char
  fprGroups : List (List Char)
  grip : List Char

/-- The fingerprint line body: the groups separated by single spaces. -/
def fprLineBody : List (List Char) → List Char
  | [] => []
  | [g] => g
  | g :: gs => g ++ ' ' :: fprLineBody gs

/-- Well-formedness: every constituent is a non-empty run of
word characters (hex digits, algorithm names, capability letters). -/
def wfBlock (b : GpgBlock) : Prop :=
  b.algo ≠ [] ∧ (∀ c ∈ b.algo, isWordChar c = true) ∧
  b.caps ≠ [] ∧ (∀ c ∈ b.caps, isWordChar c = true) ∧
  b.fprGroups ≠ [] ∧ (∀ g ∈ b.fprGroups, g ≠ [] ∧ ∀ c ∈ g, isWordChar c = true) ∧
  b.grip ≠ [] ∧ (∀ c ∈ b.grip, isWordChar c = true)

def renderBlock (b : GpgBlock) : List Char :=
  (if b.isPub then ['p', 'u', 'b'] else ['s', 'u', 'b']) ++
  ' ' :: (b.algo ++
    ' ' :: '[' :: (b.caps ++
      ']' :: '\n' :: ' ' :: (fprLineBody b.fprGroups ++
        '\n' :: ' ' :: ' ' :: 'K' :: 'e' :: 'y' :: 'g' :: 'r' :: 'i' :: 'p' ::
          ' ' :: '=' :: ' ' :: (b.grip ++ ['\n']))))

def renderBlocks (bs : List GpgBlock) : List Char :=
  (bs.map renderBlock).flatten

/-- The record the parser extracts from a well-formed block: the header
keyword, the *last* capability letter (the repeated-group capture), the
concatenated fingerprint groups, and the keygrip. -/
def blockInfo (b : GpgBlock) : GpgKeyInfo :=
  { type := if b.isPub then "pub" else "sub",
    capabilities := b.caps.getLast?,
    fingerprint := b.fprGroups.flatten.asString,
    keygrip := b.grip.asString }

/-! ## Decidable equality of results -/

instance {ε α : Type} [DecidableEq ε] [DecidableEq α] : DecidableEq (Except ε α) :=
  fun a b =>
    match a, b with
    | .error e, .error f =>
      if h : e = f then .isTrue (by rw [h]) else .isFalse (by simp [h])
    | .ok x, .ok y =>
      if h : x = y then .isTrue (by rw [h]) else .isFalse (by simp [h])
    | .error _, .ok _ => .isFalse (by simp)
    | .ok _, .error _ => .isFalse (by simp)

/-! ## General helper lemmas -/

theorem isWordChar_not_isWs {c : Char} (h : isWordChar c = true) : isWs c = false := by
  simp only [isWordChar, Bool.or_eq_true, Bool.and_eq_true, decide_eq_true_eq] at h
  rw [Bool.eq_false_iff]
  intro hw
  simp only [isWs, Bool.or_eq_true, Bool.and_eq_true, decide_eq_true_eq] at hw
  omega

theorem foldl_overwrite (l : List String) (a : Option String) :
    l.foldl (fun _ data => some data) a =
      match l.getLast? with
      | some x => some x
      | none => a := by
  induction l generalizing a with
  | nil => rfl
  | cons c t ih =>
    rw [List.foldl_cons, ih (some c), List.getLast?_cons]
    cases t.getLast? <;> rfl

theorem isPrefixOf_eq_true_iff (l1 l2 : List Char) : l1.isPrefixOf l2 = true ↔ l1 <+: l2 := by
  induction l1 generalizing l2 with
  | nil => simp [List.isPrefixOf]
  | cons c cs ih =>
    cases l2 with
    | nil => simp [List.isPrefixOf]
    | cons x xs => simp [List.isPrefixOf, ih]

theorem containsSubstr_iff_infix (s needle : List Char) :
    containsSubstr s needle = true ↔ needle <:+: s := by
  induction s with
  | nil =>
    rw [containsSubstr]
    cases needle with
    | nil => simp [List.isPrefixOf]
    | cons c t => simp [List.isPrefixOf]
  | cons a t ih =>
    rw [containsSubstr, List.infix_cons_iff]
    by_cases hp : needle.isPrefixOf (a :: t) = true
    · rw [if_pos hp]
      simp only [true_iff]
      exact Or.inl ((isPrefixOf_eq_true_iff needle (a :: t)).mp hp)
    · rw [if_neg hp, ih]
      constructor
      · exact Or.inr
      · rintro (h | h)
        · rw [← isPrefixOf_eq_true_iff] at h
          exact absurd h hp
        · exact h

/-! ## Claim C2: the `isKeyUnlocked` reply grammar -/

/-- C2: for every agent reply text: a reply that splits into exactly one
line fails with the `AgentError` kind carrying that line; otherwise a first
line that does not split on single spaces into exactly 11 tokens fails with
the `MalformedResponse` kind; otherwise the result is `true` exactly when
the 7th token (1-indexed) of the first line is the string `"1"`. -/
theorem isKeyUnlocked_reply_cases (outputs : String) :
    ((splitOnChar '\n' outputs.data).length = 1 →
      isKeyUnlocked outputs =
        .error (.agentError ((splitOnChar '\n' outputs.data).headD []).asString)) ∧
    ((splitOnChar '\n' outputs.data).length ≠ 1 →
      (splitOnChar ' ' ((splitOnChar '\n' outputs.data).headD [])).length ≠ 11 →
      isKeyUnlocked outputs = .error .malformedResponse) ∧
    ((splitOnChar '\n' outputs.data).length ≠ 1 →
      (splitOnChar ' ' ((splitOnChar '\n' outputs.data).headD [])).length = 11 →
      ∃ b, isKeyUnlocked outputs = .ok b ∧
        (b = true ↔
          (splitOnChar ' ' ((splitOnChar '\n' outputs.data).headD []))[6]? = some ['1'])) := by
  refine ⟨fun h1 => ?_, fun h1 h2 => ?_, fun h1 h2 => ?_⟩
  · show (if (splitOnChar '\n' outputs.data).length = 1 then _ else _) = _
    rw [if_pos h1]
  · show (if (splitOnChar '\n' outputs.data).length = 1 then _ else _) = _
    rw [if_neg h1]
    show (if _ ≠ 11 then _ else _) = _
    rw [if_pos h2]
  · refine ⟨(splitOnChar ' ' ((splitOnChar '\n' outputs.data).headD [])).getD 6 [] == ['1'],
      ?_, ?_⟩
    · show (if (splitOnChar '\n' outputs.data).length = 1 then _ else _) = _
      rw [if_neg h1]
      show (if _ ≠ 11 then _ else _) = _
      rw [if_neg (not_not_intro h2)]
    · have h6 : 6 < (splitOnChar ' ' ((splitOnChar '\n' outputs.data).headD [])).length := by
        omega
      rw [List.getD_eq_getElem?_getD, List.getElem?_eq_getElem h6]
      simp

/-- Witness for C2: all three branches at concrete replies. -/
theorem isKeyUnlocked_reply_cases_witness :
    isKeyUnlocked "ERR 67108891 Unknown IPC command" =
      .error (.agentError "ERR 67108891 Unknown IPC command") ∧
    isKeyUnlocked "S KEYINFO too short\nOK" = .error .malformedResponse ∧
    ∃ b, isKeyUnlocked "S KEYINFO ABCD1234 D - - - P - - -\nOK" = .ok b ∧
      (b = true ↔
        (splitOnChar ' '
          ((splitOnChar '\n' "S KEYINFO ABCD1234 D - - - P - - -\nOK".data).headD []))[6]? =
            some ['1']) :=
  ⟨(isKeyUnlocked_reply_cases "ERR 67108891 Unknown IPC command").1 (by decide),
   (isKeyUnlocked_reply_cases "S KEYINFO too short\nOK").2.1 (by decide) (by decide),
   (isKeyUnlocked_reply_cases "S KEYINFO ABCD1234 D - - - P - - -\nOK").2.2
     (by decide) (by decide)⟩

/-! ## Claim C5: concrete status lines

Equality of `Except` results is made decidable so that the concrete
scenarios can be settled by evaluation. -/

/-- C5 counterexample: in the line `S KEYINFO ABCD1234 D - - - 1 - - -`
the `1` is the *8th* token (1-indexed); the 7th token — the one
`isKeyUnlocked` inspects via `tokens[6]` — is `-`, so the call returns
`false`, refuting the claimed `true`. -/
theorem isKeyUnlocked_scenario_counterexample :
    isKeyUnlocked "S KEYINFO ABCD1234 D - - - 1 - - -\nOK" ≠ .ok true ∧
    isKeyUnlocked "S KEYINFO ABCD1234 D - - - 1 - - -\nOK" = .ok false :=
  ⟨by decide, by decide⟩

/-- C5 (amended): a reply whose first line carries `1` in the 7th token
slot (e.g. `S KEYINFO ABCD1234 D - - 1 - - - -`) yields `true` and `0`
there yields `false`; the scenario lines as written in the claim carry the
flag in the 8th slot, so both yield `false`. -/
theorem isKeyUnlocked_scenario_amended :
    isKeyUnlocked "S KEYINFO ABCD1234 D - - 1 - - - -\nOK" = .ok true ∧
    isKeyUnlocked "S KEYINFO ABCD1234 D - - 0 - - - -\nOK" = .ok false ∧
    isKeyUnlocked "S KEYINFO ABCD1234 D - - - 0 - - -\nOK" = .ok false :=
  ⟨by decide, by decide, by decide⟩

/-! ## Claim C3: `textSpawn` retains only the last stdout chunk -/

/-- C3: the stdout accumulator of `textSpawn` keeps only the last delivered
chunk (`output = data` overwrites), so on a zero exit code after the chunks
`["foo", "bar"]` the promise resolves with `"bar"`, not with the
concatenation `"foobar"` that the claim requires. -/
theorem textSpawnOutput_keeps_last :
    (∀ chunks : List String, textSpawnOutput chunks = chunks.getLast?) ∧
    textSpawnClose 0 (textSpawnOutput ["foo", "bar"]) = .ok (some "bar") ∧
    ("bar" : String) ≠ "foo" ++ "bar" := by
  refine ⟨fun chunks => ?_, rfl, by decide⟩
  rw [textSpawnOutput, foldl_overwrite]
  cases chunks.getLast? <;> rfl

/-! ## Claim C9: `CurrentTty.read` error cases -/

/-- C9: `read` fails with `NotOpened` when the read handle is absent
(i.e. `open()` has not succeeded), fails with `EmptyRead` when the
underlying read yields zero bytes, and otherwise returns exactly the bytes
the underlying read consumed. -/
theorem currentTtyRead_cases :
    currentTtyRead none = .error .notOpened ∧
    currentTtyRead (some []) = .error .emptyRead ∧
    (∀ available : List Nat, available ≠ [] →
      currentTtyRead (some available) =
        .ok (available.take 256, available.drop 256)) := by
  refine ⟨rfl, rfl, fun available h => ?_⟩
  have hlen : 0 < available.length := List.length_pos.mpr h
  have hmin : ¬ (min 256 available.length = 0) :=
    Nat.pos_iff_ne_zero.mp (lt_min (by omega) hlen)
  have ht : available.take (min 256 available.length) = available.take 256 := by
    rw [← List.take_take, List.take_length]
  have hd : available.drop (min 256 available.length) = available.drop 256 := by
    rcases Nat.le_total 256 available.length with hc | hc
    · rw [min_eq_left hc]
    · rw [min_eq_right hc, List.drop_length, List.drop_of_length_le hc]
  show (if min 256 available.length = 0 then _ else _) = _
  rw [if_neg hmin, ht, hd]

/-- Witness for C9 at a one-byte stream. -/
theorem currentTtyRead_cases_witness :
    currentTtyRead (some [65]) = .ok ([65], []) :=
  (currentTtyRead_cases.2.2 [65] (by decide)).trans (by rfl)

/-! ## Claim C10: `read` chunks are capped at 256 bytes -/

/-- C10: a successful `CurrentTty.read` consumes exactly the first
`min 256` available bytes: the returned chunk never exceeds 256 bytes, and
longer input is left in the stream for subsequent `read()` calls
(`chunk ++ rest` recovers the full input). -/
theorem currentTtyRead_chunk_bound (available : List Nat) (h : available ≠ []) :
    ∃ chunk rest, currentTtyRead (some available) = .ok (chunk, rest) ∧
      chunk.length ≤ 256 ∧ chunk ++ rest = available ∧
      chunk = available.take 256 ∧ rest = available.drop 256 :=
  ⟨available.take 256, available.drop 256, currentTtyRead_cases.2.2 available h,
    by rw [List.length_take]; omega,
    List.take_append_drop 256 available, rfl, rfl⟩

/-- Witness for C10 at a 300-byte stream: the chunk is the 256-byte
prefix. -/
theorem currentTtyRead_chunk_bound_witness :
    ∃ chunk rest,
      currentTtyRead (some (List.replicate 300 7)) = .ok (chunk, rest) ∧
      chunk.length ≤ 256 ∧ chunk ++ rest = List.replicate 300 7 ∧
      chunk = (List.replicate 300 7).take 256 ∧
      rest = (List.replicate 300 7).drop 256 :=
  currentTtyRead_chunk_bound (List.replicate 300 7)
    (List.length_pos.mp (by rw [List.length_replicate]; omega))

/-! ## Claim C6: key resolution picks the first fingerprint containing the id -/

/-- C6: the resolution loop of `getKeyInfo` returns the first parsed record
(in document order) whose fingerprint contains the identifier as a
substring (`containsSubstr` agrees with `List.IsInfix`), and fails with
the `KeyNotFound` kind when no fingerprint contains it — in particular on
the empty enumeration text, which parses to no records. -/
theorem getKeyInfoLoop_first_match :
    (∀ (infos : List GpgKeyInfo) (keyId : String),
      getKeyInfoLoop infos keyId =
        match infos.find? (fun i => containsSubstr i.fingerprint.data keyId.data) with
        | some i => .ok i
        | none => .error (.keyNotFound keyId)) ∧
    (∀ s needle : List Char, containsSubstr s needle = true ↔ needle <:+: s) ∧
    parseGpgKey "" = [] ∧
    (∀ keyId, getKeyInfo "" keyId = .error (.keyNotFound keyId)) := by
  refine ⟨fun infos keyId => ?_, containsSubstr_iff_infix, rfl, fun keyId => rfl⟩
  induction infos with
  | nil => rfl
  | cons info rest ih =>
    simp only [getKeyInfoLoop, List.find?_cons]
    cases h : containsSubstr info.fingerprint.data keyId.data
    · simpa [h] using ih
    · simp [h]

/-! ## Claim C4: the single-block resolution scenario -/

/-- C4: on the scenario block, resolving `"8888"` returns the parsed
record: type `"pub"`, fingerprint with the quartet spacing removed, and
keygrip `"ABCD1234"` as claimed — but the `capabilities` capture is
`some 'C'`: the capture group `(.)` sits inside the repetition, so
`matched[2]` retains only the last character between the brackets, never
the claimed two-character string `"SC"`. -/
theorem getKeyInfo_scenario :
    getKeyInfo
        "pub rsa4096 [SC]\n 1111 2222 3333 4444 5555 6666 7777 8888 9999\n  Keygrip = ABCD1234"
        "8888" =
      .ok { type := "pub", capabilities := some 'C',
            fingerprint := "111122223333444455556666777788889999",
            keygrip := "ABCD1234" } ∧
    ∀ info : GpgKeyInfo, info.capabilities = some 'C' → info.capabilities ≠ some 'S' :=
  ⟨by decide, fun info h => by simp [h]⟩

/-! ## Claim C8: `answerTty` consumes Actions strictly in order -/

theorem answerTty_ok_of_matches (chunks : Nat → String) :
    ∀ (actions : List TtyAction) (n : Nat) (tr : List TtyEvent),
      (∀ i, (hi : i < actions.length) →
        (actions.get ⟨i, hi⟩).question (chunks (n + i)) = true) →
      answerTty actions ⟨chunks, n, tr⟩ =
        .ok ⟨chunks, n + actions.length, tr ++ ttyScript actions chunks n⟩ := by
  intro actions
  induction actions with
  | nil => intro n tr _; simp [answerTty, ttyScript]
  | cons action rest ih =>
    intro n tr h
    have h0 : action.question (chunks n) = true := by
      simpa using h 0 (by simp)
    rw [answerTty]
    simp only [ttyRead, ttyWrite, h0, Bool.true_eq_false, if_false]
    rw [ih (n + 1) (tr ++ [TtyEvent.read (chunks n)] ++ [TtyEvent.write action.answer]) ?_]
    · have hn : n + 1 + rest.length = n + (rest.length + 1) := by omega
      rw [ttyScript, hn]
      simp
    · intro i hi
      have := h (i + 1) (by simpa using Nat.succ_lt_succ hi)
      simpa [Nat.add_assoc, Nat.add_comm 1 i] using this

theorem answerTty_error_at_first_mismatch (chunks : Nat → String) :
    ∀ (actions : List TtyAction) (n : Nat) (tr : List TtyEvent) (j : Nat)
      (hj : j < actions.length),
      (∀ i, i < j → ∀ (hi : i < actions.length),
        (actions.get ⟨i, hi⟩).question (chunks (n + i)) = true) →
      (actions.get ⟨j, hj⟩).question (chunks (n + j)) = false →
      answerTty actions ⟨chunks, n, tr⟩ = .error .unexpectedOutput := by
  intro actions
  induction actions with
  | nil => intro n tr j hj; exact absurd hj (by simp)
  | cons action rest ih =>
    intro n tr j hj hpre hj0
    cases j with
    | zero =>
      have h0 : action.question (chunks n) = false := by simpa using hj0
      rw [answerTty]
      simp only [ttyRead, h0, if_true]
    | succ j =>
      have h0 : action.question (chunks n) = true := by
        simpa using hpre 0 (Nat.succ_pos j) (by simp)
      rw [answerTty]
      simp only [ttyRead, ttyWrite, h0, Bool.true_eq_false, if_false]
      refine ih (n + 1) _ j (by simpa using Nat.lt_of_succ_lt_succ hj) ?_ ?_
      · intro i hij hi
        have := hpre (i + 1) (Nat.succ_lt_succ hij) (by simpa using Nat.succ_lt_succ hi)
        simpa [Nat.add_assoc, Nat.add_comm 1 i] using this
      · have := hj0
        simpa [Nat.add_assoc, Nat.add_comm 1 j] using this

/-- C8: the matching loop consumes Actions strictly in the given order.
If every chunk `i` satisfies Action `i`'s pattern the session succeeds and
its event trace strictly alternates `read (chunks i)` then
`write (answer i)`, in Action order (so each answer is written before the
next chunk is read, and no Action is skipped, reordered, or retried); and
as soon as chunk `j` fails Action `j`'s pattern — the hypotheses say
nothing about whether that chunk matches any *other* Action's pattern, and
chunks after `j` are unconstrained, hence never consulted — the session
fails with the `UnexpectedOutput` kind. -/
theorem answerTty_in_order :
    (∀ (actions : List TtyAction) (chunks : Nat → String),
      (∀ i, (hi : i < actions.length) →
        (actions.get ⟨i, hi⟩).question (chunks i) = true) →
      answerTty actions ⟨chunks, 0, []⟩ =
        .ok ⟨chunks, actions.length, ttyScript actions chunks 0⟩) ∧
    (∀ (actions : List TtyAction) (chunks : Nat → String) (j : Nat)
      (hj : j < actions.length),
      (∀ i, i < j → ∀ (hi : i < actions.length),
        (actions.get ⟨i, hi⟩).question (chunks i) = true) →
      (actions.get ⟨j, hj⟩).question (chunks j) = false →
      answerTty actions ⟨chunks, 0, []⟩ = .error .unexpectedOutput) := by
  constructor
  · intro actions chunks h
    have := answerTty_ok_of_matches chunks actions 0 [] (by simpa using h)
    simpa using this
  · intro actions chunks j hj hpre hj0
    exact answerTty_error_at_first_mismatch chunks actions 0 [] j hj
      (by simpa using hpre) (by simpa using hj0)

/-- Witness for C8: a session scripted with two Actions succeeds end to end
when the chunks match the two patterns in order, and fails with the
`UnexpectedOutput` kind when the second chunk matches the *first* pattern
instead of the second. -/
theorem answerTty_in_order_witness :
    answerTty
        [⟨fun s => s == "Q1", "A1"⟩, ⟨fun s => s == "Q2", "A2"⟩]
        ⟨fun i => if i = 0 then "Q1" else "Q2", 0, []⟩ =
      .ok ⟨fun i => if i = 0 then "Q1" else "Q2", 2,
        ttyScript [⟨fun s => s == "Q1", "A1"⟩, ⟨fun s => s == "Q2", "A2"⟩]
          (fun i => if i = 0 then "Q1" else "Q2") 0⟩ ∧
    answerTty
        [⟨fun s => s == "Q1", "A1"⟩, ⟨fun s => s == "Q2", "A2"⟩]
        ⟨fun _ => "Q1", 0, []⟩ = .error .unexpectedOutput :=
  ⟨answerTty_in_order.1 _ _
      (fun i hi =>
        match i, hi with
        | 0, _ => rfl
        | 1, _ => rfl),
   answerTty_in_order.2 _ _ 1 (by decide)
      (fun i hij hi =>
        match i, hij, hi with
        | 0, _, _ => rfl
        | i + 1, hij, _ => absurd hij (by omega))
      rfl⟩

/-! ## Claim C7: provenance of parsed records

Every record emitted by `parseGpgKey` comes from a full match of the
pattern, so its keygrip is a nonempty word-character run taken verbatim
from the input, and its fingerprint is the whitespace-stripped capture of
group 3 — a substring of the whitespace-stripped input.  The fingerprint
itself, however, *can* be empty, because the group `((?:\s*\w+)*)` matches
the empty string (see the counterexample below). -/

theorem matchLit_suffix {cs l r : List Char} (h : matchLit cs l = some r) :
    r <:+ l ∧ r.length + cs.length = l.length := by
  induction cs generalizing l with
  | nil =>
    rw [matchLit] at h
    cases h
    exact ⟨List.suffix_rfl, by simp⟩
  | cons c cs ih =>
    cases l with
    | nil => exact absurd h (by rw [matchLit]; simp)
    | cons x xs =>
      rw [matchLit] at h
      by_cases hx : x = c
      · rw [if_pos hx] at h
        obtain ⟨hs, hl⟩ := ih h
        exact ⟨hs.trans (List.suffix_cons x xs), by simp; omega⟩
      · rw [if_neg hx] at h
        cases h

theorem matchPubSub_some {l : List Char} {ty : String} {r : List Char}
    (h : matchPubSub l = some (ty, r)) : r <:+ l ∧ r.length + 3 = l.length := by
  rw [matchPubSub] at h
  cases h1 : matchLit ['p', 'u', 'b'] l with
  | some r1 =>
    rw [h1] at h
    cases h
    simpa using matchLit_suffix h1
  | none =>
    rw [h1] at h
    cases h2 : matchLit ['s', 'u', 'b'] l with
    | some r2 =>
      rw [h2] at h
      cases h
      simpa using matchLit_suffix h2
    | none => rw [h2] at h; cases h

theorem matchWsPlus_suffix {l r : List Char} (h : matchWsPlus l = some r) : r <:+ l := by
  rw [matchWsPlus] at h
  by_cases he : (l.takeWhile isWs).isEmpty
  · rw [if_pos he] at h; cases h
  · rw [if_neg he] at h
    cases h
    exact List.dropWhile_suffix isWs

theorem matchWordPlus_some {l run r : List Char} (h : matchWordPlus l = some (run, r)) :
    run ≠ [] ∧ (∀ c ∈ run, isWordChar c = true) ∧ run <+: l ∧ r <:+ l := by
  rw [matchWordPlus] at h
  by_cases he : (l.takeWhile isWordChar).isEmpty
  · rw [if_pos he] at h; cases h
  · rw [if_neg he] at h
    cases h
    exact ⟨by simpa [List.isEmpty_iff] using he,
      fun c hc => List.mem_takeWhile_imp hc,
      List.takeWhile_prefix isWordChar,
      List.dropWhile_suffix isWordChar⟩

theorem matchCapsSegment_some {l : List Char} {caps : Option Char} {r : List Char}
    (h : matchCapsSegment l = some (caps, r)) : r <:+ l ∧ r.length < l.length := by
  simp only [matchCapsSegment] at h
  cases hd : l.dropWhile (fun c => c != '\n') with
  | nil =>
    simp only [hd] at h
    cases h
  | cons d restAfter =>
    simp only [hd] at h
    cases hrev : (l.takeWhile (fun c => c != '\n')).reverse with
    | nil =>
      simp only [hrev] at h
      cases h
    | cons lastC revBody =>
      simp only [hrev] at h
      by_cases hc : lastC = ']'
      · rw [if_pos hc] at h
        by_cases hb : (revBody.dropWhile (fun c => c != '[')).isEmpty = true
        · rw [if_pos hb] at h
          cases h
        · rw [if_neg hb] at h
          cases h
          have h1 : r <:+ d :: r := List.suffix_cons d r
          have h2 : d :: r <:+ l := hd ▸ List.dropWhile_suffix _
          refine ⟨h1.trans h2, ?_⟩
          have h3 := h2.length_le
          simp at h3
          omega
      · rw [if_neg hc] at h
        cases h

theorem matchKeygripTail_some {l grip r : List Char}
    (h : matchKeygripTail l = some (grip, r)) :
    grip ≠ [] ∧ (∀ c ∈ grip, isWordChar c = true) ∧ grip <:+: l ∧ r <:+ l := by
  cases l with
  | nil => rw [matchKeygripTail] at h; cases h
  | cons c0 l1 =>
    rw [matchKeygripTail] at h
    by_cases hc0 : c0 = '\n'
    · rw [if_pos hc0] at h
      cases hws : matchWsPlus l1 with
      | none =>
        simp only [hws] at h
        cases h
      | some l2 =>
        simp only [hws] at h
        cases hlit : matchLit ['K', 'e', 'y', 'g', 'r', 'i', 'p'] l2 with
        | none =>
          simp only [hlit] at h
          cases h
        | some l3 =>
          simp only [hlit] at h
          cases l3 with
          | nil => cases h
          | cons c1 l4 =>
            cases l4 with
            | nil => cases h
            | cons ceq l5 =>
              cases l5 with
              | nil => cases h
              | cons c2 l6 =>
                simp only at h
                by_cases hcond : (isWs c1 && (ceq == '=') && isWs c2) = true
                · rw [if_pos hcond] at h
                  obtain ⟨hne, hword, hpre, hsuf⟩ := matchWordPlus_some h
                  have hl6 : l6 <:+ c1 :: (ceq :: (c2 :: l6)) :=
                    ((List.suffix_cons c2 l6).trans (List.suffix_cons ceq _)).trans
                      (List.suffix_cons c1 _)
                  have hl3 : (c1 :: (ceq :: (c2 :: l6))) <:+ l2 := (matchLit_suffix hlit).1
                  have hl2 : l2 <:+ l1 := matchWsPlus_suffix hws
                  have hl1 : l1 <:+ c0 :: l1 := List.suffix_cons c0 l1
                  have hl6all : l6 <:+ c0 :: l1 := ((hl6.trans hl3).trans hl2).trans hl1
                  exact ⟨hne, hword, hpre.isInfix.trans hl6all.isInfix, hsuf.trans hl6all⟩
                · rw [if_neg hcond] at h
                  cases h
    · rw [if_neg hc0] at h
      cases h

theorem searchFprEnd_some {l : List Char} {k e : Nat} {grip r : List Char}
    (h : searchFprEnd l k = some (e, grip, r)) :
    matchKeygripTail (l.drop e) = some (grip, r) := by
  induction k with
  | zero =>
    rw [searchFprEnd] at h
    cases ht : matchKeygripTail l with
    | none =>
      simp only [ht] at h
      cases h
    | some gr =>
      simp only [ht] at h
      cases h
      simpa using ht
  | succ k ih =>
    rw [searchFprEnd] at h
    by_cases hb : fprBoundary l (k + 1) = true
    · rw [if_pos hb] at h
      cases ht : matchKeygripTail (l.drop (k + 1)) with
      | none =>
        simp only [ht] at h
        exact ih h
      | some gr =>
        simp only [ht] at h
        cases h
        exact ht
    · rw [if_neg hb] at h
      exact ih h

theorem parseLoopFuel_succ (fuel : Nat) (l : List Char) :
    parseLoopFuel (fuel + 1) l =
      match matchBlock l with
      | some (info, rest) => info :: parseLoopFuel fuel rest
      | none =>
        match l with
        | [] => []
        | _ :: t => parseLoopFuel fuel t := rfl

theorem infix_filter {a b : List Char} (p : Char → Bool) (h : a <:+: b) :
    a.filter p <:+: b.filter p := by
  obtain ⟨s, t, rfl⟩ := h
  exact ⟨s.filter p, t.filter p, by simp⟩

theorem asString_data (l : List Char) : (List.asString l).data = l := rfl

/-- Everything `matchBlock` emits is harvested from the input text. -/
theorem matchBlock_some {l : List Char} {info : GpgKeyInfo} {rest : List Char}
    (h : matchBlock l = some (info, rest)) :
    info.keygrip.data ≠ [] ∧ (∀ c ∈ info.keygrip.data, isWordChar c = true) ∧
    info.keygrip.data <:+: l ∧
    (∀ c ∈ info.fingerprint.data, isWs c = false) ∧
    (∃ raw, raw <:+: l ∧ info.fingerprint.data = raw.filter (fun c => !isWs c)) ∧
    rest <:+ l ∧ rest.length < l.length := by
  rw [matchBlock] at h
  split at h
  · cases h
  next ty l1 h0 =>
    split at h
    · cases h
    next l2 h1 =>
      split at h
      · cases h
      next run l3 h2 =>
        split at h
        · cases h
        next caps l4 h3 =>
          split at h
          · cases h
          next e grip r h4 =>
            cases h
            have htail := searchFprEnd_some h4
            obtain ⟨hne, hword, hinf, hsuf⟩ := matchKeygripTail_some htail
            have hl1 : l1 <:+ l := (matchPubSub_some h0).1
            have hl1len : l1.length + 3 = l.length := (matchPubSub_some h0).2
            have hl2 : l2 <:+ l1 := matchWsPlus_suffix h1
            have hl3 : l3 <:+ l2 := (matchWordPlus_some h2).2.2.2
            have hl4 : l4 <:+ l3 := (matchCapsSegment_some h3).1
            have hl4l : l4 <:+ l := ((hl4.trans hl3).trans hl2).trans hl1
            have hdropl : l4.drop e <:+ l := (List.drop_suffix e l4).trans hl4l
            refine ⟨?_, ?_, ?_, ?_, ?_, ?_, ?_⟩
            · rw [asString_data]
              exact hne
            · rw [asString_data]
              exact hword
            · rw [asString_data]
              exact hinf.trans hdropl.isInfix
            · intro c hc
              rw [asString_data] at hc
              have hm := List.mem_filter.mp hc
              simpa using hm.2
            · refine ⟨l4.take e,
                (List.take_prefix e l4).isInfix.trans hl4l.isInfix, ?_⟩
              rw [asString_data]
            · exact hsuf.trans hdropl
            · have hr := hsuf.length_le
              have h4len : (l4.drop e).length ≤ l4.length :=
                (List.drop_suffix e l4).length_le
              have hcaps : l4.length < l3.length := (matchCapsSegment_some h3).2
              have hn3 : l3.length ≤ l2.length := hl3.length_le
              have hn2 : l2.length ≤ l1.length := hl2.length_le
              omega

/-- Provenance lifted through the `exec` scan. -/
theorem parseLoopFuel_provenance :
    ∀ (fuel : Nat) (l : List Char) (info : GpgKeyInfo),
      info ∈ parseLoopFuel fuel l →
      info.keygrip ≠ "" ∧ (∀ c ∈ info.keygrip.data, isWordChar c = true) ∧
      info.keygrip.data <:+: l ∧
      (∀ c ∈ info.fingerprint.data, isWs c = false) ∧
      info.fingerprint.data <:+: l.filter (fun c => !isWs c) := by
  intro fuel
  induction fuel with
  | zero =>
    intro l info h
    exact absurd h (List.not_mem_nil info)
  | succ fuel ih =>
    intro l info h
    rw [parseLoopFuel_succ] at h
    split at h
    next i rest hm =>
      rcases List.mem_cons.mp h with hEq | hMem
      · subst hEq
        obtain ⟨hne, hword, hinf, hws, ⟨raw, hraw, hfp⟩, _, _⟩ := matchBlock_some hm
        refine ⟨?_, hword, hinf, hws, ?_⟩
        · intro hs
          exact hne (by rw [hs])
        · rw [hfp]
          exact infix_filter _ hraw
      · obtain ⟨hne, hword, hinf, hws, hfpinf⟩ := ih rest info hMem
        obtain ⟨hrest, _⟩ := (matchBlock_some hm).2.2.2.2.2
        exact ⟨hne, hword, hinf.trans hrest.isInfix, hws,
          hfpinf.trans (infix_filter _ hrest.isInfix)⟩
    next hm =>
      cases l with
      | nil => exact absurd h (List.not_mem_nil info)
      | cons c t =>
        obtain ⟨hne, hword, hinf, hws, hfpinf⟩ := ih t info h
        have ht : t <:+: c :: t := (List.suffix_cons c t).isInfix
        exact ⟨hne, hword, hinf.trans ht, hws, hfpinf.trans (infix_filter _ ht)⟩

/-- C7 counterexample: on this input the fingerprint group of the pattern
matches the empty string, so `parseGpgKey` emits a record whose
fingerprint is empty — the claim's "non-empty fingerprint" fails. -/
theorem parseGpgKey_empty_fingerprint :
    parseGpgKey "pub a [S]\n\n Keygrip = AB12" =
      [{ type := "pub", capabilities := some 'S', fingerprint := "", keygrip := "AB12" }] ∧
    ∃ info ∈ parseGpgKey "pub a [S]\n\n Keygrip = AB12", info.fingerprint = "" :=
  ⟨by decide,
   ⟨{ type := "pub", capabilities := some 'S', fingerprint := "", keygrip := "AB12" },
    by decide, rfl⟩⟩

/-- C7 (amended): every record returned by `parseGpgKey` has a non-empty
keygrip made of word characters appearing verbatim in the input, and a
whitespace-free (possibly *empty*) fingerprint that is a substring of the
whitespace-stripped input; a block that does not match the full pattern
contributes no record at all. -/
theorem parseGpgKey_record_provenance (rawText : String) :
    ∀ info ∈ parseGpgKey rawText,
      info.keygrip ≠ "" ∧
      (∀ c ∈ info.keygrip.data, isWordChar c = true) ∧
      info.keygrip.data <:+: rawText.data ∧
      (∀ c ∈ info.fingerprint.data, isWs c = false) ∧
      info.fingerprint.data <:+: rawText.data.filter (fun c => !isWs c) :=
  fun info h => parseLoopFuel_provenance _ _ info h

/-- Witness for C7 at the single-block scenario text and its parsed
record. -/
theorem parseGpgKey_record_provenance_witness :
    ("ABCD1234" : String) ≠ "" ∧
    (∀ c ∈ ("ABCD1234" : String).data, isWordChar c = true) ∧
    ("ABCD1234" : String).data <:+:
      "pub rsa4096 [SC]\n 1111 2222 3333 4444 5555 6666 7777 8888 9999\n  Keygrip = ABCD1234".data ∧
    (∀ c ∈ ("111122223333444455556666777788889999" : String).data, isWs c = false) ∧
    ("111122223333444455556666777788889999" : String).data <:+:
      "pub rsa4096 [SC]\n 1111 2222 3333 4444 5555 6666 7777 8888 9999\n  Keygrip = ABCD1234".data.filter
        (fun c => !isWs c) :=
  parseGpgKey_record_provenance
    "pub rsa4096 [SC]\n 1111 2222 3333 4444 5555 6666 7777 8888 9999\n  Keygrip = ABCD1234"
    { type := "pub", capabilities := some 'C',
      fingerprint := "111122223333444455556666777788889999", keygrip := "ABCD1234" }
    (by decide)

/-! ## Claim C1: stage computations on rendered well-formed blocks -/

theorem isWordChar_bne {c d : Char} (h : isWordChar c = true) (hd : isWordChar d = false) :
    (c != d) = true := by
  rw [bne_iff_ne]
  rintro rfl
  rw [h] at hd
  cases hd

theorem isWordChar_wsOrWord {c : Char} (h : isWordChar c = true) :
    (isWs c || isWordChar c) = true := by
  rw [h, Bool.or_true]

theorem matchLit_head_ne {c x : Char} {cs l : List Char} (h : x ≠ c) :
    matchLit (c :: cs) (x :: l) = none := by
  rw [matchLit, if_neg h]

theorem matchLit_append_self (cs r : List Char) : matchLit cs (cs ++ r) = some r := by
  induction cs with
  | nil => rfl
  | cons c cs ih => rw [List.cons_append, matchLit, if_pos rfl, ih]

theorem matchBlock_nil : matchBlock [] = none := rfl

theorem matchBlock_newline (t : List Char) : matchBlock ('\n' :: t) = none := by
  simp only [matchBlock, matchPubSub,
    matchLit_head_ne (show ('\n' : Char) ≠ 'p' by decide),
    matchLit_head_ne (show ('\n' : Char) ≠ 's' by decide)]

theorem matchWsPlus_space_word {A R : List Char} (hA : A ≠ [])
    (hAw : ∀ c ∈ A, isWordChar c = true) :
    matchWsPlus (' ' :: (A ++ R)) = some (A ++ R) := by
  obtain ⟨a, A', rfl⟩ := List.exists_cons_of_ne_nil hA
  have ha : isWs a = false := isWordChar_not_isWs (hAw a (by simp))
  have hsp : isWs ' ' = true := by decide
  simp [matchWsPlus, List.takeWhile_cons, List.dropWhile_cons, hsp, ha]

theorem matchWordPlus_word_stop {A : List Char} {x : Char} {Y : List Char}
    (hA : A ≠ []) (hAw : ∀ c ∈ A, isWordChar c = true) (hx : isWordChar x = false) :
    matchWordPlus (A ++ x :: Y) = some (A, x :: Y) := by
  have ht : (A ++ x :: Y).takeWhile isWordChar = A := by
    rw [List.takeWhile_append_of_pos hAw, List.takeWhile_cons, if_neg (by rw [hx]; simp),
      List.append_nil]
  have hd : (A ++ x :: Y).dropWhile isWordChar = x :: Y := by
    rw [List.dropWhile_append_of_pos hAw, List.dropWhile_cons, if_neg (by rw [hx]; simp)]
  rw [matchWordPlus, ht, hd, if_neg (by simpa [List.isEmpty_iff] using hA)]

theorem fprLineBody_single (g : List Char) : fprLineBody [g] = g := rfl

theorem fprLineBody_cons (g g2 : List Char) (gs : List (List Char)) :
    fprLineBody (g :: g2 :: gs) = g ++ ' ' :: fprLineBody (g2 :: gs) := rfl

theorem fprLineBody_all {gs : List (List Char)}
    (h : ∀ g ∈ gs, g ≠ [] ∧ ∀ c ∈ g, isWordChar c = true) :
    ∀ c ∈ fprLineBody gs, (isWs c || isWordChar c) = true := by
  induction gs with
  | nil => intro c hc; cases hc
  | cons g gs ih =>
    cases gs with
    | nil =>
      intro c hc
      rw [fprLineBody_single] at hc
      exact isWordChar_wsOrWord ((h g (by simp)).2 c hc)
    | cons g2 gs2 =>
      intro c hc
      rw [fprLineBody_cons] at hc
      rcases List.mem_append.mp hc with hg | hsep
      · exact isWordChar_wsOrWord ((h g (by simp)).2 c hg)
      · rcases List.mem_cons.mp hsep with hrfl | hrest
        · subst hrfl; decide
        · exact ih (fun g' hg' => h g' (List.mem_cons_of_mem g hg')) c hrest

theorem fprLineBody_filter {gs : List (List Char)}
    (h : ∀ g ∈ gs, g ≠ [] ∧ ∀ c ∈ g, isWordChar c = true) :
    (fprLineBody gs).filter (fun c => !isWs c) = gs.flatten := by
  induction gs with
  | nil => rfl
  | cons g gs ih =>
    have hg : ∀ c ∈ g, (!isWs c) = true := fun c hc => by
      rw [isWordChar_not_isWs ((h g (by simp)).2 c hc)]
      rfl
    cases gs with
    | nil =>
      rw [fprLineBody_single]
      simp only [List.flatten_cons, List.flatten_nil, List.append_nil]
      exact List.filter_eq_self.mpr hg
    | cons g2 gs2 =>
      rw [fprLineBody_cons, List.filter_append, List.filter_cons,
        if_neg (by decide), List.filter_eq_self.mpr hg,
        ih (fun g' hg' => h g' (List.mem_cons_of_mem g hg'))]
      simp [List.flatten_cons]

theorem fprLineBody_ne_nil {gs : List (List Char)} (hne : gs ≠ [])
    (h : ∀ g ∈ gs, g ≠ [] ∧ ∀ c ∈ g, isWordChar c = true) :
    fprLineBody gs ≠ [] := by
  cases gs with
  | nil => exact absurd rfl hne
  | cons g gs =>
    have hg : g ≠ [] := (h g (by simp)).1
    cases gs with
    | nil => rw [fprLineBody_single]; exact hg
    | cons g2 gs2 =>
      rw [fprLineBody_cons]
      intro hcontra
      exact hg (List.append_eq_nil.mp hcontra).1

theorem fprLineBody_getLast {gs : List (List Char)} (hne : gs ≠ [])
    (h : ∀ g ∈ gs, g ≠ [] ∧ ∀ c ∈ g, isWordChar c = true) :
    ∃ w, (fprLineBody gs).getLast? = some w ∧ isWordChar w = true := by
  induction gs with
  | nil => exact absurd rfl hne
  | cons g gs ih =>
    cases gs with
    | nil =>
      have hg : g ≠ [] := (h g (by simp)).1
      refine ⟨g.getLast hg, ?_, (h g (by simp)).2 _ (List.getLast_mem hg)⟩
      rw [fprLineBody_single, List.getLast?_eq_getLast g hg]
    | cons g2 gs2 =>
      obtain ⟨w, hw, hwword⟩ :=
        ih (by simp) (fun g' hg' => h g' (List.mem_cons_of_mem g hg'))
      refine ⟨w, ?_, hwword⟩
      rw [fprLineBody_cons, List.getLast?_append, List.getLast?_cons, hw]
      simp

theorem matchCapsSegment_render {C Z : List Char} (_hC : C ≠ [])
    (hCw : ∀ c ∈ C, isWordChar c = true) :
    matchCapsSegment (' ' :: '[' :: (C ++ ']' :: '\n' :: ' ' :: Z)) =
      some (C.getLast?, ' ' :: Z) := by
  have hCne : ∀ c ∈ C, (fun c => c != '\n') c = true :=
    fun c hc => isWordChar_bne (hCw c hc) (by decide)
  have hCnb : ∀ c ∈ C.reverse, (fun c => c != '[') c = true :=
    fun c hc => isWordChar_bne (hCw c (List.mem_reverse.mp hc)) (by decide)
  have htw : (' ' :: '[' :: (C ++ ']' :: '\n' :: ' ' :: Z)).takeWhile (fun c => c != '\n') =
      ' ' :: '[' :: (C ++ [']']) := by
    rw [List.takeWhile_cons, if_pos (by decide), List.takeWhile_cons, if_pos (by decide),
      List.takeWhile_append_of_pos hCne, List.takeWhile_cons, if_pos (by decide),
      List.takeWhile_cons, if_neg (by decide)]
  have hdw : (' ' :: '[' :: (C ++ ']' :: '\n' :: ' ' :: Z)).dropWhile (fun c => c != '\n') =
      '\n' :: ' ' :: Z := by
    rw [List.dropWhile_cons, if_pos (by decide), List.dropWhile_cons, if_pos (by decide),
      List.dropWhile_append_of_pos hCne, List.dropWhile_cons, if_pos (by decide),
      List.dropWhile_cons, if_neg (by decide)]
  have hrev : (' ' :: '[' :: (C ++ [']'])).reverse = ']' :: (C.reverse ++ ['[', ' ']) := by
    simp
  have hdb : (C.reverse ++ ['[', ' ']).dropWhile (fun c => c != '[') = ['[', ' '] := by
    rw [List.dropWhile_append_of_pos hCnb, List.dropWhile_cons, if_neg (by decide)]
  have htb : (C.reverse ++ ['[', ' ']).takeWhile (fun c => c != '[') = C.reverse := by
    rw [List.takeWhile_append_of_pos hCnb, List.takeWhile_cons, if_neg (by decide),
      List.append_nil]
  simp only [matchCapsSegment, htw, hdw, hrev]
  rw [if_pos True.intro, hdb, htb]
  rw [if_neg (by decide)]
  rw [List.head?_reverse]

theorem matchKeygripTail_render {K R : List Char} (hK : K ≠ [])
    (hKw : ∀ c ∈ K, isWordChar c = true) :
    matchKeygripTail ('\n' :: ' ' :: ' ' :: 'K' :: 'e' :: 'y' :: 'g' :: 'r' :: 'i' :: 'p' ::
        ' ' :: '=' :: ' ' :: (K ++ '\n' :: R)) = some (K, '\n' :: R) := by
  have htk : (' ' :: ' ' :: 'K' :: 'e' :: 'y' :: 'g' :: 'r' :: 'i' :: 'p' ::
      ' ' :: '=' :: ' ' :: (K ++ '\n' :: R)).takeWhile isWs = [' ', ' '] := by
    rw [List.takeWhile_cons, if_pos (by decide), List.takeWhile_cons, if_pos (by decide),
      List.takeWhile_cons, if_neg (by decide)]
  have hdk : (' ' :: ' ' :: 'K' :: 'e' :: 'y' :: 'g' :: 'r' :: 'i' :: 'p' ::
      ' ' :: '=' :: ' ' :: (K ++ '\n' :: R)).dropWhile isWs =
      'K' :: 'e' :: 'y' :: 'g' :: 'r' :: 'i' :: 'p' :: ' ' :: '=' :: ' ' :: (K ++ '\n' :: R) := by
    rw [List.dropWhile_cons, if_pos (by decide), List.dropWhile_cons, if_pos (by decide),
      List.dropWhile_cons, if_neg (by decide)]
  have hws : matchWsPlus (' ' :: ' ' :: 'K' :: 'e' :: 'y' :: 'g' :: 'r' :: 'i' :: 'p' ::
      ' ' :: '=' :: ' ' :: (K ++ '\n' :: R)) =
      some ('K' :: 'e' :: 'y' :: 'g' :: 'r' :: 'i' :: 'p' ::
        ' ' :: '=' :: ' ' :: (K ++ '\n' :: R)) := by
    rw [matchWsPlus, htk, hdk, if_neg (by decide)]
  have hlit : matchLit ['K', 'e', 'y', 'g', 'r', 'i', 'p']
      ('K' :: 'e' :: 'y' :: 'g' :: 'r' :: 'i' :: 'p' ::
        ' ' :: '=' :: ' ' :: (K ++ '\n' :: R)) =
      some (' ' :: '=' :: ' ' :: (K ++ '\n' :: R)) :=
    matchLit_append_self ['K', 'e', 'y', 'g', 'r', 'i', 'p'] _
  have hwp : matchWordPlus (K ++ '\n' :: R) = some (K, '\n' :: R) :=
    matchWordPlus_word_stop hK hKw (by decide)
  rw [matchKeygripTail, if_pos rfl]
  simp only [hws, hlit]
  rw [if_pos (by decide), hwp]

theorem drop_len_add (P S : List Char) (n : Nat) :
    (P ++ S).drop (P.length + n) = S.drop n := by
  rw [← List.drop_drop, List.drop_left]

theorem matchKeygripTail_not_newline {c : Char} (hc : c ≠ '\n') (l : List Char) :
    matchKeygripTail (c :: l) = none := by
  rw [matchKeygripTail, if_neg hc]

theorem searchFprEnd_step_none {l : List Char} {e : Nat}
    (h : matchKeygripTail (l.drop (e + 1)) = none) :
    searchFprEnd l (e + 1) = searchFprEnd l e := by
  rw [searchFprEnd]
  by_cases hb : fprBoundary l (e + 1) = true
  · rw [if_pos hb]
    simp only [h]
  · rw [if_neg hb]

theorem searchFprEnd_skip {l : List Char} (e : Nat) :
    ∀ δ : Nat, (∀ i, 1 ≤ i → i ≤ δ → matchKeygripTail (l.drop (e + i)) = none) →
    searchFprEnd l (e + δ) = searchFprEnd l e := by
  intro δ
  induction δ with
  | zero => intro _; rfl
  | succ δ ih =>
    intro h
    have he : e + (δ + 1) = (e + δ) + 1 := by omega
    have htail : matchKeygripTail (l.drop ((e + δ) + 1)) = none := by
      rw [← he]
      exact h (δ + 1) (by omega) (by omega)
    rw [he, searchFprEnd_step_none htail]
    exact ih (fun i h1 h2 => h i h1 (by omega))

theorem searchFprEnd_hit {l : List Char} {e : Nat} {grip r : List Char}
    (hb : fprBoundary l e = true) (ht : matchKeygripTail (l.drop e) = some (grip, r)) :
    searchFprEnd l e = some (e, grip, r) := by
  cases e with
  | zero =>
    rw [List.drop_zero] at ht
    rw [searchFprEnd]
    simp only [ht]
  | succ e =>
    rw [searchFprEnd, if_pos hb]
    simp only [ht]

theorem append_getElem_pred {G S : List Char} (hG : G ≠ []) :
    (G ++ S)[G.length - 1]? = G.getLast? := by
  have h1 : G.length - 1 < G.length := by
    have := List.length_pos.mpr hG
    omega
  rw [List.getElem?_append_left h1, List.getLast?_eq_getElem?]

/-- The fingerprint-group search on a rendered block: the candidates inside
the keygrip line all fail (their heads are not newlines), and the
candidate at the end of the fingerprint groups succeeds. -/
theorem searchFprEnd_render {G K t : List Char}
    (_hG : G ≠ []) (hGlast : ∃ w, G.getLast? = some w ∧ isWordChar w = true)
    (hK : K ≠ []) (hKw : ∀ c ∈ K, isWordChar c = true) :
    searchFprEnd
      (' ' :: (G ++ '\n' :: ' ' :: ' ' :: 'K' :: 'e' :: 'y' :: 'g' :: 'r' :: 'i' :: 'p' ::
        ' ' :: '=' :: ' ' :: (K ++ '\n' :: t)))
      (G.length + 12) =
    some (G.length + 1, K, '\n' :: t) := by
  have hPS : (' ' :: (G ++ '\n' :: ' ' :: ' ' :: 'K' :: 'e' :: 'y' :: 'g' :: 'r' :: 'i' :: 'p' ::
      ' ' :: '=' :: ' ' :: (K ++ '\n' :: t))) =
      (' ' :: G) ++ ('\n' :: ' ' :: ' ' :: 'K' :: 'e' :: 'y' :: 'g' :: 'r' :: 'i' :: 'p' ::
      ' ' :: '=' :: ' ' :: (K ++ '\n' :: t)) := by
    simp
  have hdrop : ∀ n,
      ((' ' :: G) ++ ('\n' :: ' ' :: ' ' :: 'K' :: 'e' :: 'y' :: 'g' :: 'r' :: 'i' :: 'p' ::
        ' ' :: '=' :: ' ' :: (K ++ '\n' :: t))).drop ((G.length + 1) + n) =
      ('\n' :: ' ' :: ' ' :: 'K' :: 'e' :: 'y' :: 'g' :: 'r' :: 'i' :: 'p' ::
        ' ' :: '=' :: ' ' :: (K ++ '\n' :: t)).drop n := by
    intro n
    have hlen : (' ' :: G).length = G.length + 1 := by simp
    rw [← hlen, drop_len_add]
  rw [hPS]
  have h12 : G.length + 12 = (G.length + 1) + 11 := by omega
  have hskip : ∀ i, 1 ≤ i → i ≤ 11 →
      matchKeygripTail
        (((' ' :: G) ++ ('\n' :: ' ' :: ' ' :: 'K' :: 'e' :: 'y' :: 'g' :: 'r' :: 'i' :: 'p' ::
          ' ' :: '=' :: ' ' :: (K ++ '\n' :: t))).drop ((G.length + 1) + i)) = none := by
    intro i h1 h11
    rw [hdrop i]
    interval_cases i <;> exact matchKeygripTail_not_newline (by decide) _
  rw [h12, searchFprEnd_skip (G.length + 1) 11 hskip]
  have hb : fprBoundary
      ((' ' :: G) ++ ('\n' :: ' ' :: ' ' :: 'K' :: 'e' :: 'y' :: 'g' :: 'r' :: 'i' :: 'p' ::
        ' ' :: '=' :: ' ' :: (K ++ '\n' :: t))) (G.length + 1) = true := by
    obtain ⟨w, hw, hwword⟩ := hGlast
    have hidx : ((' ' :: G) ++ ('\n' :: ' ' :: ' ' :: 'K' :: 'e' :: 'y' :: 'g' :: 'r' :: 'i' ::
        'p' :: ' ' :: '=' :: ' ' :: (K ++ '\n' :: t)))[(G.length + 1) - 1]? = some w := by
      have hlen : (' ' :: G).length = G.length + 1 := by simp
      rw [← hlen, append_getElem_pred (by simp)]
      rw [List.getLast?_cons, hw]
      rfl
    rw [fprBoundary, hidx]
    simp only [hwword]
    simp
  have ht : matchKeygripTail
      (((' ' :: G) ++ ('\n' :: ' ' :: ' ' :: 'K' :: 'e' :: 'y' :: 'g' :: 'r' :: 'i' :: 'p' ::
        ' ' :: '=' :: ' ' :: (K ++ '\n' :: t))).drop (G.length + 1)) =
      some (K, '\n' :: t) := by
    have h0 : (G.length + 1) = (G.length + 1) + 0 := by omega
    rw [h0, hdrop 0, List.drop_zero]
    exact matchKeygripTail_render hK hKw
  exact searchFprEnd_hit hb ht

theorem matchPubSub_pub (S1 : List Char) :
    matchPubSub ('p' :: 'u' :: 'b' :: S1) = some ("pub", S1) := by
  simp only [matchPubSub,
    show matchLit ['p', 'u', 'b'] ('p' :: 'u' :: 'b' :: S1) = some S1 from
      matchLit_append_self ['p', 'u', 'b'] S1]

theorem matchPubSub_sub (S1 : List Char) :
    matchPubSub ('s' :: 'u' :: 'b' :: S1) = some ("sub", S1) := by
  simp only [matchPubSub, matchLit_head_ne (show ('s' : Char) ≠ 'p' by decide),
    show matchLit ['s', 'u', 'b'] ('s' :: 'u' :: 'b' :: S1) = some S1 from
      matchLit_append_self ['s', 'u', 'b'] S1]

theorem takeWhile_wsword_render {G K : List Char}
    (hGall : ∀ c ∈ G, (isWs c || isWordChar c) = true)
    (_hKw : ∀ c ∈ K, isWordChar c = true) {t : List Char} :
    ((' ' :: (G ++ '\n' :: ' ' :: ' ' :: 'K' :: 'e' :: 'y' :: 'g' :: 'r' :: 'i' :: 'p' ::
      ' ' :: '=' :: ' ' :: (K ++ '\n' :: t))).takeWhile
        (fun c => isWs c || isWordChar c)).length = G.length + 12 := by
  rw [List.takeWhile_cons, if_pos (by decide),
    List.takeWhile_append_of_pos hGall,
    List.takeWhile_cons, if_pos (by decide),
    List.takeWhile_cons, if_pos (by decide),
    List.takeWhile_cons, if_pos (by decide),
    List.takeWhile_cons, if_pos (by decide),
    List.takeWhile_cons, if_pos (by decide),
    List.takeWhile_cons, if_pos (by decide),
    List.takeWhile_cons, if_pos (by decide),
    List.takeWhile_cons, if_pos (by decide),
    List.takeWhile_cons, if_pos (by decide),
    List.takeWhile_cons, if_pos (by decide),
    List.takeWhile_cons, if_pos (by decide),
    List.takeWhile_cons, if_neg (by decide)]
  simp

theorem take_filter_render {gs : List (List Char)}
    (h : ∀ g ∈ gs, g ≠ [] ∧ ∀ c ∈ g, isWordChar c = true) {S : List Char} :
    ((' ' :: (fprLineBody gs ++ S)).take ((fprLineBody gs).length + 1)).filter
      (fun c => !isWs c) = gs.flatten := by
  rw [List.take_succ_cons, List.take_left, List.filter_cons, if_neg (by decide),
    fprLineBody_filter h]

/-- A rendered well-formed block, followed by anything, is matched by the
pattern exactly once, producing `blockInfo` and resting just before the
block's final newline. -/
theorem matchBlock_renderBlock (b : GpgBlock) (t : List Char) (hwf : wfBlock b) :
    matchBlock (renderBlock b ++ t) = some (blockInfo b, '\n' :: t) := by
  obtain ⟨hA, hAw, hC, hCw, hGgrps, hGw, hK, hKw⟩ := hwf
  have hGall := fprLineBody_all hGw
  have hGne := fprLineBody_ne_nil hGgrps hGw
  have hGlast := fprLineBody_getLast hGgrps hGw
  cases hIsPub : b.isPub
  · simp only [renderBlock, blockInfo, hIsPub, Bool.false_eq_true, if_false, List.cons_append,
      List.nil_append, List.append_assoc]
    simp only [matchBlock, matchPubSub_sub,
      matchWsPlus_space_word hA hAw,
      matchWordPlus_word_stop hA hAw (show isWordChar ' ' = false by decide),
      matchCapsSegment_render hC hCw,
      takeWhile_wsword_render hGall hKw,
      searchFprEnd_render hGne hGlast hK hKw,
      take_filter_render hGw]
  · simp only [renderBlock, blockInfo, hIsPub, eq_self_iff_true, if_true, List.cons_append,
      List.nil_append, List.append_assoc]
    simp only [matchBlock, matchPubSub_pub,
      matchWsPlus_space_word hA hAw,
      matchWordPlus_word_stop hA hAw (show isWordChar ' ' = false by decide),
      matchCapsSegment_render hC hCw,
      takeWhile_wsword_render hGall hKw,
      searchFprEnd_render hGne hGlast hK hKw,
      take_filter_render hGw]

theorem parseLoopFuel_nil (fuel : Nat) : parseLoopFuel fuel [] = [] := by
  cases fuel with
  | zero => rfl
  | succ f => rw [parseLoopFuel_succ, matchBlock_nil]

theorem parseLoopFuel_renderBlocks :
    ∀ (bs : List GpgBlock), (∀ b ∈ bs, wfBlock b) →
    ∀ fuel, (renderBlocks bs).length < fuel →
      parseLoopFuel fuel (renderBlocks bs) = bs.map blockInfo := by
  intro bs
  induction bs with
  | nil =>
    intro _ fuel _
    rw [show renderBlocks [] = [] from rfl, parseLoopFuel_nil, List.map_nil]
  | cons b bs ih =>
    intro hwf fuel hf
    have hrender : renderBlocks (b :: bs) = renderBlock b ++ renderBlocks bs := by
      rw [renderBlocks, List.map_cons, List.flatten_cons, renderBlocks]
    rw [hrender] at hf ⊢
    cases fuel with
    | zero => omega
    | succ f =>
      rw [parseLoopFuel_succ]
      simp only [matchBlock_renderBlock b _ (hwf b (by simp))]
      have hlenb : 2 ≤ (renderBlock b).length := by
        rw [renderBlock]
        cases b.isPub <;> simp
      have hf2 : (renderBlocks bs).length + 1 < f := by
        rw [List.length_append] at hf
        omega
      cases f with
      | zero => omega
      | succ f2 =>
        rw [List.map_cons]
        have hstep : parseLoopFuel (f2 + 1) ('\n' :: renderBlocks bs) =
            parseLoopFuel f2 (renderBlocks bs) := by
          rw [parseLoopFuel_succ]
          simp only [matchBlock_newline]
        rw [hstep, ih (fun b' hb' => hwf b' (List.mem_cons_of_mem b hb')) f2 (by omega)]

/-- C1: for every enumeration output consisting of well-formed key blocks,
`parseGpgKey` returns exactly one record per block, in document order, and
every returned record has a whitespace-free fingerprint and a non-empty
keygrip. -/
theorem parseGpgKey_wellFormed_blocks (bs : List GpgBlock) (hwf : ∀ b ∈ bs, wfBlock b) :
    parseGpgKey (renderBlocks bs).asString = bs.map blockInfo ∧
    (parseGpgKey (renderBlocks bs).asString).length = bs.length ∧
    ∀ info ∈ parseGpgKey (renderBlocks bs).asString,
      (∀ c ∈ info.fingerprint.data, isWs c = false) ∧ info.keygrip ≠ "" := by
  have hdata : (renderBlocks bs).asString.data = renderBlocks bs := rfl
  have hmain : parseGpgKey (renderBlocks bs).asString = bs.map blockInfo := by
    rw [parseGpgKey, hdata]
    exact parseLoopFuel_renderBlocks bs hwf _ (by omega)
  refine ⟨hmain, by rw [hmain]; simp, ?_⟩
  intro info hinfo
  have hprov := parseLoopFuel_provenance ((renderBlocks bs).asString.data.length + 1)
    (renderBlocks bs).asString.data info (by rw [parseGpgKey] at hinfo; exact hinfo)
  exact ⟨hprov.2.2.2.1, hprov.1⟩

/-- Witness for C1: a two-block output (a `pub` and a `sub` block) parses
to exactly the two expected records. -/
theorem parseGpgKey_wellFormed_blocks_witness :
    parseGpgKey
        (renderBlocks
          [⟨true, "rsa4096".data, "SC".data, ["1111".data, "2222".data], "AAAA".data⟩,
           ⟨false, "rsa4096".data, "E".data, ["BBBB".data, "CCCC".data], "DDDD".data⟩]).asString =
      [⟨true, "rsa4096".data, "SC".data, ["1111".data, "2222".data], "AAAA".data⟩,
       ⟨false, "rsa4096".data, "E".data, ["BBBB".data, "CCCC".data], "DDDD".data⟩].map blockInfo ∧
    (parseGpgKey
        (renderBlocks
          [⟨true, "rsa4096".data, "SC".data, ["1111".data, "2222".data], "AAAA".data⟩,
           ⟨false, "rsa4096".data, "E".data, ["BBBB".data, "CCCC".data], "DDDD".data⟩]).asString).length =
      ([⟨true, "rsa4096".data, "SC".data, ["1111".data, "2222".data], "AAAA".data⟩,
        ⟨false, "rsa4096".data, "E".data, ["BBBB".data, "CCCC".data], "DDDD".data⟩] :
        List GpgBlock).length ∧
    ∀ info ∈ parseGpgKey
        (renderBlocks
          [⟨true, "rsa4096".data, "SC".data, ["1111".data, "2222".data], "AAAA".data⟩,
           ⟨false, "rsa4096".data, "E".data, ["BBBB".data, "CCCC".data], "DDDD".data⟩]).asString,
      (∀ c ∈ info.fingerprint.data, isWs c = false) ∧ info.keygrip ≠ "" :=
  parseGpgKey_wellFormed_blocks
    [⟨true, "rsa4096".data, "SC".data, ["1111".data, "2222".data], "AAAA".data⟩,
     ⟨false, "rsa4096".data, "E".data, ["BBBB".data, "CCCC".data], "DDDD".data⟩]
    (by
      intro b hb
      rcases List.mem_cons.mp hb with rfl | hb2
      · rw [wfBlock]; decide
      · rcases List.mem_cons.mp hb2 with rfl | hb3
        · rw [wfBlock]; decide
        · cases hb3)
